import Mathlib

/-!
Shallow embedding of the synchronization engine of the vscode-pair-prog
repository, together with proofs of the specification claims.

Text is modelled as lists of characters (the code works with JavaScript
strings indexed by UTF-16 code units; a list of characters with positional
take and drop is the corresponding pure model).  Maps keyed by document
path are modelled as functions out of String.
-/

namespace PairProg

/-! ## Protocol data (network/protocol.ts)

TextChange mirrors the wire type: `rangeOffset` is the start offset in the
document, `rangeLength` the number of replaced characters (0 for a pure
insert), `text` the replacement text. -/

structure TextChange where
  rangeOffset : Nat
  rangeLength : Nat
  text : List Char
deriving Repr, DecidableEq

structure EditPayload where
  filePath : String
  version : Nat
  changes : List TextChange
deriving Repr, DecidableEq

structure FullSyncPayload where
  filePath : String
  content : List Char
  version : Nat
deriving Repr, DecidableEq

/-! ## DocumentSync (sync/remoteOpGuard.ts, embedded DocumentSync class) -/

/-- One entry of the per-file edit history kept by the host for rebasing. -/
structure HistoryEntry where
  version : Nat
  changes : List TextChange
deriving Repr, DecidableEq

/-- State of a DocumentSync instance: per-file version counters
(`fileVersions`, absent key meaning the version was never set), the host's
bounded per-file edit history, and the contents of the locally openable
documents (`none` when `openTextDocument` would fail for that path). -/
structure SyncState where
  fileVersions : String → Option Nat
  editHistory : String → List HistoryEntry
  contents : String → Option (List Char)

/-- Pointwise update of a String-keyed map. -/
def setKey {α : Type} (f : String → α) (k : String) (v : α) : String → α :=
  fun x => if x = k then v else f x

namespace DocumentSync

def MAX_HISTORY_PER_FILE : Nat := 100

/-- getVersion: `this.fileVersions.get(filePath) || 0`. -/
def getVersion (st : SyncState) (filePath : String) : Nat :=
  (st.fileVersions filePath).getD 0

/-- incrementVersion: `this.fileVersions.set(filePath, this.getVersion(filePath) + 1)`. -/
def incrementVersion (st : SyncState) (filePath : String) : SyncState :=
  { st with fileVersions := setKey st.fileVersions filePath (some (getVersion st filePath + 1)) }

/-- recordEdit: push the entry, then prune to the last `MAX_HISTORY_PER_FILE`
entries. -/
def recordEdit (st : SyncState) (filePath : String) (version : Nat)
    (changes : List TextChange) : SyncState :=
  let history := st.editHistory filePath ++ [⟨version, changes⟩]
  let pruned :=
    if MAX_HISTORY_PER_FILE < history.length then
      history.drop (history.length - MAX_HISTORY_PER_FILE)
    else history
  { st with editHistory := setKey st.editHistory filePath pruned }

/-- transformSingle: positional operational transform of one incoming change
against one already-applied change. -/
def transformSingle (incoming prior : TextChange) : TextChange :=
  let priorEnd := prior.rangeOffset + prior.rangeLength
  if priorEnd ≤ incoming.rangeOffset then
    -- incoming is entirely after the prior change: shift the offset by
    -- `prior.text.length - prior.rangeLength` (no truncation occurs here
    -- because rangeOffset is at least priorEnd, hence at least rangeLength)
    { incoming with rangeOffset := incoming.rangeOffset + prior.text.length - prior.rangeLength }
  else if incoming.rangeOffset + incoming.rangeLength ≤ prior.rangeOffset then
    -- incoming is entirely before: unchanged
    incoming
  else
    -- overlapping edits: host wins, incoming becomes a pure insert placed
    -- right after the prior replacement (priorEnd + shift)
    { incoming with
      rangeOffset := priorEnd + prior.text.length - prior.rangeLength
      rangeLength := 0 }

/-- transformChanges: rebase incoming changes against every recorded change
whose version is at least the incoming base version, in history order. -/
def transformChanges (st : SyncState) (filePath : String) (baseVersion : Nat)
    (changes : List TextChange) : List TextChange :=
  let history := st.editHistory filePath
  let intervening := history.filter (fun h => baseVersion ≤ h.version)
  intervening.foldl
    (fun transformed past =>
      past.changes.foldl
        (fun t pastChange => t.map (fun c => transformSingle c pastChange))
        transformed)
    changes

/-- Replacement of the span `[rangeOffset, rangeOffset + rangeLength)` of a
text by the change's replacement text (the effect of one
`WorkspaceEdit.replace` whose range was computed by `positionAt`). -/
def applyTextChange (s : List Char) (c : TextChange) : List Char :=
  s.take c.rangeOffset ++ c.text ++ s.drop (c.rangeOffset + c.rangeLength)

/-- Insert a change into a list sorted by descending range offset. -/
def insertByOffsetDesc (c : TextChange) : List TextChange → List TextChange
  | [] => [c]
  | d :: rest =>
    if d.rangeOffset ≤ c.rangeOffset then c :: d :: rest
    else d :: insertByOffsetDesc c rest

/-- Sort changes by descending range offset. -/
def sortByOffsetDesc : List TextChange → List TextChange
  | [] => []
  | c :: rest => insertByOffsetDesc c (sortByOffsetDesc rest)

/-- Application of the changes collected in one WorkspaceEdit.  All ranges
refer to the original document; applying them from the highest offset to the
lowest realizes the simultaneous replacement. -/
def applyTextChanges (s : List Char) (cs : List TextChange) : List Char :=
  (sortByOffsetDesc cs).foldl applyTextChange s

/-- handleRemoteEdit: transform a stale edit (host side), apply the changes to
the document if it can be opened, record the applied edit in the history
(host side) and increment the version.  When the document cannot be opened
the edit is skipped entirely. -/
def handleRemoteEdit (st : SyncState) (isHost : Bool) (payload : EditPayload) :
    SyncState :=
  let currentVersion := getVersion st payload.filePath
  let transformedChanges :=
    if isHost ∧ payload.version < currentVersion then
      transformChanges st payload.filePath payload.version payload.changes
    else payload.changes
  match st.contents payload.filePath with
  | none => st
  | some text =>
    let newContent := some (applyTextChanges text transformedChanges)
    let st1 : SyncState :=
      { st with contents := setKey st.contents payload.filePath newContent }
    let st2 :=
      if isHost then recordEdit st1 payload.filePath currentVersion transformedChanges
      else st1
    incrementVersion st2 payload.filePath

/-- handleFullSync: adopt the version unconditionally; replace the whole
document content when the document can be opened (when it cannot, only the
version was adopted). -/
def handleFullSync (st : SyncState) (payload : FullSyncPayload) : SyncState :=
  let st1 : SyncState :=
    { st with fileVersions := setKey st.fileVersions payload.filePath (some payload.version) }
  match st1.contents payload.filePath with
  | none => st1
  | some _ =>
    { st1 with contents := setKey st1.contents payload.filePath (some payload.content) }

end DocumentSync

/-! ## The ot-text operation type (sync/sharedbBridge.ts)

An operation is a list of components: skip (a number), insert (a string) or
delete (`{d: n}`), interpreted left to right from position 0. -/

inductive OtComp where
  | skip (n : Nat)
  | ins (s : List Char)
  | del (n : Nat)
deriving Repr, DecidableEq

abbrev OtOp := List OtComp

namespace OtText

/-- Application of an operation to a text, left to right from position 0;
text after the last component is retained. -/
def applyOp : OtOp → List Char → List Char
  | [], s => s
  | .skip n :: rest, s => s.take n ++ applyOp rest (s.drop n)
  | .ins t :: rest, s => t ++ applyOp rest s
  | .del n :: rest, s => applyOp rest (s.drop n)

/-- Number of characters of the input text an operation consumes. -/
def inputLen : OtOp → Nat
  | [] => 0
  | .skip n :: rest => n + inputLen rest
  | .ins _ :: rest => inputLen rest
  | .del n :: rest => n + inputLen rest

/-- Prepend a skip component, dropping it when it is empty. -/
def consSkip (n : Nat) (op : OtOp) : OtOp :=
  if n = 0 then op else .skip n :: op

/-- Prepend a delete component, dropping it when it is empty. -/
def consDel (n : Nat) (op : OtOp) : OtOp :=
  if n = 0 then op else .del n :: op

/-- Termination measure for compose. -/
def weight : OtComp → Nat
  | .skip n => n + 1
  | .ins s => s.length + 1
  | .del n => n + 1

def opWeight (op : OtOp) : Nat := (op.map weight).sum

/-- Modelled from the spec: the `otText.compose` function of the ot-text
library (a dependency whose source is not part of this repository), which
`ShareDBBridge.scheduleOp` uses to coalesce a newly arrived local edit onto
the already pending operation.  Per the spec, "composition must preserve the
net effect of applying both edits in sequence"; this is proved below as
`applyOp_compose`.  The second operation is interpreted against the output
of the first. -/
def compose : OtOp → OtOp → OtOp
  | [], b => b
  | a, [] => a
  | .del n :: a, b => .del n :: compose a b
  | .skip n :: a, .ins u :: b => .ins u :: compose (.skip n :: a) b
  | .skip n :: a, .skip m :: b =>
    if n = 0 then compose a (.skip m :: b)
    else if m = 0 then compose (.skip n :: a) b
    else
      .skip (min n m) ::
        compose (consSkip (n - min n m) a) (consSkip (m - min n m) b)
  | .skip n :: a, .del m :: b =>
    if n = 0 then compose a (.del m :: b)
    else if m = 0 then compose (.skip n :: a) b
    else
      .del (min n m) ::
        compose (consSkip (n - min n m) a) (consDel (m - min n m) b)
  | .ins t :: a, .ins u :: b => .ins u :: compose (.ins t :: a) b
  | .ins t :: a, .skip m :: b =>
    if m = 0 then compose (.ins t :: a) b
    else if m < t.length then
      .ins (t.take m) :: compose (.ins (t.drop m) :: a) b
    else
      .ins t :: compose a (consSkip (m - t.length) b)
  | .ins t :: a, .del m :: b =>
    if m = 0 then compose (.ins t :: a) b
    else if m < t.length then
      compose (.ins (t.drop m) :: a) b
    else
      compose a (consDel (m - t.length) b)
termination_by a b => opWeight a + opWeight b
decreasing_by
  all_goals simp_all [opWeight, weight]
  all_goals
    first
    | omega
    | (have hs1 : (List.map weight (consSkip (n - min n m) a)).sum ≤
          n - min n m + 1 + (List.map weight a).sum := by
        unfold consSkip
        split
        all_goals simp [weight]
       have hs2 : (List.map weight (consSkip (m - min n m) b)).sum ≤
          m - min n m + 1 + (List.map weight b).sum := by
        unfold consSkip
        split
        all_goals simp [weight]
       omega)
    | (have hs1 : (List.map weight (consSkip (n - min n m) a)).sum ≤
          n - min n m + 1 + (List.map weight a).sum := by
        unfold consSkip
        split
        all_goals simp [weight]
       have hs2 : (List.map weight (consDel (m - min n m) b)).sum ≤
          m - min n m + 1 + (List.map weight b).sum := by
        unfold consDel
        split
        all_goals simp [weight]
       omega)
    | (have hs2 : (List.map weight (consSkip (m - t.length) b)).sum ≤
          m - t.length + 1 + (List.map weight b).sum := by
        unfold consSkip
        split
        all_goals simp [weight]
       omega)
    | (have hs2 : (List.map weight (consDel (m - t.length) b)).sum ≤
          m - t.length + 1 + (List.map weight b).sum := by
        unfold consDel
        split
        all_goals simp [weight]
       omega)

/-- Number of characters an operation produces from the consumed part of the
input (retained characters plus insertions). -/
def outputLen : OtOp → Nat
  | [] => 0
  | .skip n :: rest => n + outputLen rest
  | .ins t :: rest => t.length + outputLen rest
  | .del _ :: rest => outputLen rest

end OtText

/-! ## RemoteOpGuard (sync/remoteOpGuard.ts)

The guard is a set of pending keys.  `run` adds every supplied key, runs the
wrapped action, and removes every supplied key in a `finally` block, so the
removal happens on the success path and on the failure path alike. -/

namespace RemoteOpGuard

/-- isActive: `this.pending.has(key)`. -/
def isActive (pending : List String) (key : String) : Bool :=
  pending.contains key

/-- Add one key to the pending set (`Set.add`). -/
def addKey (pending : List String) (k : String) : List String :=
  if pending.contains k then pending else pending ++ [k]

/-- Remove one key from the pending set (`Set.delete`). -/
def removeKey (pending : List String) (k : String) : List String :=
  pending.filter (fun x => x ≠ k)

def addKeys (pending : List String) (keys : List String) : List String :=
  keys.foldl addKey pending

def removeKeys (pending : List String) (keys : List String) : List String :=
  keys.foldl removeKey pending

/-- Result of one `run` call: the pending set while the wrapped action was
executing, the pending set after `run` settled, and the propagated outcome. -/
structure RunResult (ε α : Type) where
  during : List String
  after : List String
  outcome : Except ε α
deriving Repr

/-- RemoteOpGuard.run, with the wrapped action modelled by its outcome: the
keys are added, the action executes with the enlarged pending set, and the
`finally` block removes the keys whether the action succeeded or threw. -/
def run {ε α : Type} (pending : List String) (keys : List String)
    (outcome : Except ε α) : RunResult ε α :=
  let during := addKeys pending keys
  match outcome with
  | .ok a => { during := during, after := removeKeys during keys, outcome := .ok a }
  | .error e => { during := during, after := removeKeys during keys, outcome := .error e }

end RemoteOpGuard

/-! ## ShareDBBridge (sync/sharedbBridge.ts) -/

/-- A VS Code text-document change event as the bridge inspects it: the URI
scheme, the workspace-relative path (`none` when `toRelativePath` returns
null), and the content changes. -/
structure ChangeEvent where
  scheme : String
  filePath : Option String
  contentChanges : List TextChange

/-- isSyncableDocument (utils/pathUtils.ts): the scheme is `file` or
`pairprog`. -/
def isSyncableDocument (scheme : String) : Bool :=
  scheme = "file" ∨ scheme = "pairprog"

/-- State of a ShareDBBridge: the echo-guard pending set, the subscribed
ShareDB documents (path to current ShareDB text `doc.data` for docs whose
type is non-null), the per-file pending batched operation, whether a batch
timer is scheduled per file, and the operations submitted so far. -/
structure BridgeState where
  guard : List String
  docs : String → Option (List Char)
  pendingOps : String → Option OtOp
  batchTimers : String → Bool
  submitted : List (String × OtOp)

namespace ShareDBBridge

/-- changeToOp: convert one VS Code content change into an ot-text op against
the pre-change ShareDB text, clamping offset and delete length to the
document. -/
def changeToOp (preText : List Char) (change : TextChange) : OtOp :=
  let docLen := preText.length
  let offset := min change.rangeOffset docLen
  let deleteLen := min change.rangeLength (docLen - offset)
  (if 0 < offset then [OtComp.skip offset] else []) ++
    (if 0 < deleteLen then [OtComp.del deleteLen] else []) ++
    (if 0 < change.text.length then [OtComp.ins change.text] else [])

/-- scheduleOp: compose the new op onto the pending op for the file and
(re)arm the flush timer. -/
def scheduleOp (st : BridgeState) (filePath : String) (op : OtOp) : BridgeState :=
  let composed :=
    match st.pendingOps filePath with
    | some existing => OtText.compose existing op
    | none => op
  { st with
    pendingOps := setKey st.pendingOps filePath (some composed)
    batchTimers := setKey st.batchTimers filePath true }

/-- flushOp: clear the timer and submit the pending op, if any. -/
def flushOp (st : BridgeState) (filePath : String) : BridgeState :=
  let st1 := { st with batchTimers := setKey st.batchTimers filePath false }
  match st1.pendingOps filePath with
  | none => st1
  | some op =>
    { st1 with
      pendingOps := setKey st1.pendingOps filePath none
      submitted := st1.submitted ++ [(filePath, op)] }

/-- onLocalDocumentChange: ignore non-syncable schemes, empty change lists,
unresolvable paths, paths under the echo guard and unsubscribed documents;
otherwise convert each change against the ShareDB text and schedule every
non-empty op. -/
def onLocalDocumentChange (st : BridgeState) (e : ChangeEvent) : BridgeState :=
  if ¬ isSyncableDocument e.scheme then st
  else if e.contentChanges.isEmpty then st
  else
    match e.filePath with
    | none => st
    | some filePath =>
      if RemoteOpGuard.isActive st.guard filePath then st
      else
        match st.docs filePath with
        | none => st
        | some data =>
          e.contentChanges.foldl
            (fun acc change =>
              let op := changeToOp data change
              if 0 < op.length then scheduleOp acc filePath op else acc)
            st

/-- dispose: cancel all timers and discard all unflushed pending ops, and
drop the subscribed docs; nothing further is submitted. -/
def dispose (st : BridgeState) : BridgeState :=
  { st with
    batchTimers := fun _ => false
    pendingOps := fun _ => none
    docs := fun _ => none }

end ShareDBBridge

/-! ## PairProgClient reconnection (network/client.ts) -/

namespace PairProgClient

def MAX_RECONNECT_ATTEMPTS : Nat := 15

/-- Client connection state relevant to reconnection. -/
structure ClientState where
  reconnectAttempts : Nat
  intentionalDisconnect : Bool
  reconnectTimerSet : Bool
deriving Repr, DecidableEq

/-- Events the client emits to its listeners. -/
inductive ClientEmit where
  | reconnecting (attempt : Nat)
  | disconnected
deriving Repr, DecidableEq

/-- Events driving the reconnection logic: the socket closed, the reconnect
timer fired and the connection attempt failed, the reconnect timer fired and
the connection opened, a terminal handshake Error (AUTH_FAILED,
VERSION_MISMATCH or SESSION_FULL) or a Welcome protocol-version mismatch
arrived, a Disconnect message arrived, or the user disconnected. -/
inductive ClientEvent where
  | socketClosed
  | reconnectFailed
  | reconnectOpened
  | terminalReject
  | recvDisconnect
  | userDisconnect
deriving Repr, DecidableEq

/-- attemptReconnect: give up with a terminal `disconnected` once the attempt
counter has reached the cap, otherwise increment it, emit `reconnecting` with
the new attempt number and arm the reconnect timer. -/
def attemptReconnect (st : ClientState) : ClientState × List ClientEmit :=
  if MAX_RECONNECT_ATTEMPTS ≤ st.reconnectAttempts then
    (st, [.disconnected])
  else
    ({ st with
        reconnectAttempts := st.reconnectAttempts + 1
        reconnectTimerSet := true },
      [.reconnecting (st.reconnectAttempts + 1)])

/-- One step of the client reconnection logic. -/
def step (st : ClientState) (e : ClientEvent) : ClientState × List ClientEmit :=
  match e with
  | .socketClosed =>
    if st.intentionalDisconnect then (st, [.disconnected])
    else attemptReconnect st
  | .reconnectFailed =>
    -- the timer callback can only run when the reconnect timer was armed
    if st.reconnectTimerSet then
      attemptReconnect { st with reconnectTimerSet := false }
    else (st, [])
  | .reconnectOpened =>
    if st.reconnectTimerSet then
      ({ st with reconnectAttempts := 0, reconnectTimerSet := false }, [])
    else (st, [])
  | .terminalReject =>
    -- the Error handler sets intentionalDisconnect and calls stopReconnect,
    -- which clears the timer and resets the attempt counter
    ({ st with
        intentionalDisconnect := true
        reconnectTimerSet := false
        reconnectAttempts := 0 }, [])
  | .recvDisconnect =>
    ({ st with intentionalDisconnect := true }, [.disconnected])
  | .userDisconnect =>
    ({ st with
        intentionalDisconnect := true
        reconnectTimerSet := false
        reconnectAttempts := 0 }, [])

/-- Run a trace of events, collecting all emissions. -/
def runTrace (st : ClientState) : List ClientEvent → ClientState × List ClientEmit
  | [] => (st, [])
  | e :: rest =>
    ((runTrace (step st e).1 rest).1,
      (step st e).2 ++ (runTrace (step st e).1 rest).2)

end PairProgClient

/-! ## PairProgServer heartbeat (network/server.ts) -/

namespace PairProgServer

def MAX_MISSED_PINGS : Nat := 5

/-- Server connection state relevant to the heartbeat. -/
structure ServerState where
  hasClient : Bool
  missedPings : Nat
deriving Repr, DecidableEq

/-- Outcome of one heartbeat interval tick. -/
structure TickResult where
  state : ServerState
  terminated : Bool
  pingSent : Bool
deriving Repr, DecidableEq

/-- One tick of the heartbeat interval: do nothing without a client;
otherwise count the interval as missed, terminate once the count exceeds the
threshold, else send a Ping. -/
def heartbeatTick (st : ServerState) : TickResult :=
  if ¬ st.hasClient then ⟨st, false, false⟩
  else if MAX_MISSED_PINGS < st.missedPings + 1 then
    ⟨⟨false, 0⟩, true, false⟩
  else
    ⟨⟨true, st.missedPings + 1⟩, false, true⟩

/-- Receiving a Pong resets the missed counter. -/
def handlePong (st : ServerState) : ServerState :=
  { st with missedPings := 0 }

/-- Iterate the heartbeat for a number of intervals with no Pong arriving,
reporting whether a termination happened anywhere along the way. -/
def ticksWithoutPong (st : ServerState) : Nat → ServerState × Bool
  | 0 => (st, false)
  | Nat.succ j =>
    ((ticksWithoutPong (heartbeatTick st).state j).1,
      (heartbeatTick st).terminated || (ticksWithoutPong (heartbeatTick st).state j).2)

end PairProgServer

/-! ## Handshake validation (session/hostSession.ts, network/server.ts,
network/client.ts) -/

def PROTOCOL_VERSION : Nat := 2

structure HelloPayload where
  username : String
  workspaceFolder : String
  passphrase : Option String
  protocolVersion : Nat
deriving Repr, DecidableEq

namespace HostSession

/-- Host reaction to a Hello from the connected client. -/
inductive HelloResponse where
  | errorNoWorkspace
  | rejectAuthFailed
  | welcome
deriving Repr, DecidableEq

/-- onClientConnected, validation part: fail without a workspace folder;
reject AUTH_FAILED when a passphrase is configured (non-empty) and the
Hello's passphrase does not match it exactly; otherwise accept and send
Welcome.  No protocol-version check occurs on the host. -/
def onClientConnected (hasWorkspace : Bool) (configuredPassphrase : String)
    (hello : HelloPayload) : HelloResponse :=
  if ¬ hasWorkspace then .errorNoWorkspace
  else if configuredPassphrase ≠ "" ∧ hello.passphrase ≠ some configuredPassphrase then
    .rejectAuthFailed
  else .welcome

end HostSession

namespace PairProgServer

/-- Server reaction to a new socket connection. -/
inductive ConnResponse where
  | rejectSessionFull
  | accepted
deriving Repr, DecidableEq

/-- handleNewConnection: when a client is already connected, send an Error
with code SESSION_FULL and close the new socket before any Hello is read;
otherwise adopt the socket. -/
def handleNewConnection (clientConnected : Bool) : ConnResponse :=
  if clientConnected then .rejectSessionFull else .accepted

end PairProgServer

namespace PairProgClient

/-- Client reaction to a Welcome message. -/
inductive WelcomeResult where
  | versionMismatchClose
  | connected
deriving Repr, DecidableEq

/-- Welcome handling in setupSocketListeners: the client compares the
Welcome's protocolVersion against its own PROTOCOL_VERSION; on mismatch it
marks the disconnect intentional, emits a local error and closes the socket;
on match it emits `connected`. -/
def handleWelcome (welcomeProtocolVersion : Nat) : WelcomeResult :=
  if welcomeProtocolVersion ≠ PROTOCOL_VERSION then .versionMismatchClose
  else .connected

end PairProgClient

/-! ## Content fetching (vfs/pairProgFileSystemProvider.ts) -/

namespace PairProgFileSystemProvider

/-- State of the pending content-request map together with the promises
resolved so far: `pending` maps a path to the identifier of the promise
whose resolver is currently stored for it, `resolvedList` records each
promise resolution as (identifier, delivered content). -/
structure FetchState where
  pending : List (String × Nat)
  resolvedList : List (Nat × List Char)
deriving Repr, DecidableEq

def lookupPending (st : FetchState) (path : String) : Option Nat :=
  (st.pending.find? (fun kv => kv.1 = path)).map (fun kv => kv.2)

def erasePending (st : FetchState) (path : String) : List (String × Nat) :=
  st.pending.filter (fun kv => kv.1 ≠ path)

/-- Events of the request lifecycle: `request path id` is a requestContent
call storing the resolver of promise `id` under `path` (overwriting any
resolver already stored there); `response path content` is
handleContentResponse; `timeoutFired path id` is the 10-second timer of
promise `id` firing, which resolves its own promise with empty content if
any request for `path` is still pending. -/
inductive FetchEvent where
  | request (path : String) (id : Nat)
  | response (path : String) (content : List Char)
  | timeoutFired (path : String) (id : Nat)
deriving Repr, DecidableEq

def stepFetch (st : FetchState) : FetchEvent → FetchState
  | .request path id =>
    { st with pending := (path, id) :: erasePending st path }
  | .response path content =>
    match lookupPending st path with
    | none => st
    | some id =>
      { st with
        pending := erasePending st path
        resolvedList := st.resolvedList ++ [(id, content)] }
  | .timeoutFired path id =>
    match lookupPending st path with
    | none => st
    | some _ =>
      { st with
        pending := erasePending st path
        resolvedList := st.resolvedList ++ [(id, [])] }

def runFetchTrace (st : FetchState) : List FetchEvent → FetchState
  | [] => st
  | e :: rest => runFetchTrace (stepFetch st e) rest

/-- A promise is resolved when some resolution is recorded for its id. -/
def isResolved (st : FetchState) (id : Nat) : Bool :=
  st.resolvedList.any (fun kv => kv.1 = id)

def emptyFetchState : FetchState := ⟨[], []⟩

end PairProgFileSystemProvider

/-! ## Batch application and concrete scenario states -/

namespace DocumentSync

/-- Sequential host-side application of a batch of client-submitted
operations. -/
def applyOps (st : SyncState) (ops : List EditPayload) : SyncState :=
  ops.foldl (fun s payload => handleRemoteEdit s true payload) st

/-- An operation batch is well-versioned from `v` when each operation is
tagged with the version the host holds when that operation arrives. -/
def wellVersioned : Nat → List EditPayload → Bool
  | _, [] => true
  | v, payload :: rest => payload.version = v && wellVersioned (v + 1) rest

/-- All operations of a batch address the same file. -/
def sameFile (p : String) (ops : List EditPayload) : Bool :=
  ops.all (fun payload => payload.filePath = p)

/-- Sequential effect of a batch on a text: each operation's changes applied
in order. -/
def applyOpsText (text : List Char) (ops : List EditPayload) : List Char :=
  ops.foldl (fun s payload => applyTextChanges s payload.changes) text

end DocumentSync

/-- Host state of the spec's rebase scenario: content was `ABCD` at version
5; the host has applied a local edit replacing `B` (offset 1, length 1) with
`X`, recorded it in the history at version 5, and incremented the version to
6, so the content is now `AXCD`. -/
def scenarioC1 : SyncState :=
  { fileVersions := fun p => if p = "a.txt" then some 6 else none
    editHistory := fun p => if p = "a.txt" then [⟨5, [⟨1, 1, "X".toList⟩]⟩] else []
    contents := fun p => if p = "a.txt" then some "AXCD".toList else none }

/-- The concurrent client operation of the rebase scenario: based on version
5, it deletes `CD` (offset 2, length 2) and inserts `EF`. -/
def scenarioC1Edit : EditPayload := ⟨"a.txt", 5, [⟨2, 2, "EF".toList⟩]⟩

/-- A bridge state with one unflushed pending operation for `a.txt` whose
batch timer is armed, and nothing submitted yet. -/
def bridgeWithPending : BridgeState :=
  { guard := []
    docs := fun p => if p = "a.txt" then some "hello".toList else none
    pendingOps := fun p => if p = "a.txt" then some [OtComp.ins "x".toList] else none
    batchTimers := fun p => p = "a.txt"
    submitted := [] }

/-! ## ot-text operation lemmas -/

namespace OtText

theorem applyOp_consSkip (j : Nat) (b : OtOp) (s : List Char) :
    applyOp (consSkip j b) s = s.take j ++ applyOp b (s.drop j) := by
  unfold consSkip
  split
  · subst j; simp [applyOp]
  · simp [applyOp]

theorem applyOp_consDel (j : Nat) (b : OtOp) (s : List Char) :
    applyOp (consDel j b) s = applyOp b (s.drop j) := by
  unfold consDel
  split
  · subst j; simp
  · simp [applyOp]

theorem inputLen_consSkip (j : Nat) (b : OtOp) :
    inputLen (consSkip j b) = j + inputLen b := by
  unfold consSkip
  split
  · omega
  · simp [inputLen]

theorem inputLen_consDel (j : Nat) (b : OtOp) :
    inputLen (consDel j b) = j + inputLen b := by
  unfold consDel
  split
  · omega
  · simp [inputLen]

theorem outputLen_consSkip (j : Nat) (b : OtOp) :
    outputLen (consSkip j b) = j + outputLen b := by
  unfold consSkip
  split
  · omega
  · simp [outputLen]

/-- Length of the result of applying an operation that fits the text. -/
theorem length_applyOp (a : OtOp) (s : List Char) (h : inputLen a ≤ s.length) :
    (applyOp a s).length = s.length - inputLen a + outputLen a := by
  induction a generalizing s with
  | nil => simp [applyOp, inputLen, outputLen]
  | cons c rest ih =>
    cases c with
    | skip n =>
      simp only [inputLen] at h
      have hr : inputLen rest ≤ (s.drop n).length := by
        simp [List.length_drop]; omega
      simp only [applyOp, inputLen, outputLen, List.length_append,
        List.length_take, ih (s.drop n) hr, List.length_drop]
      omega
    | ins t =>
      simp only [inputLen] at h
      simp only [applyOp, inputLen, outputLen, List.length_append, ih s h]
      omega
    | del n =>
      simp only [inputLen] at h
      have hr : inputLen rest ≤ (s.drop n).length := by
        simp [List.length_drop]; omega
      simp only [applyOp, inputLen, outputLen, ih (s.drop n) hr, List.length_drop]
      omega

/-- Composition preserves the net effect of applying both operations in
sequence, for operations that fit the texts they are applied to: this is the
spec's correctness requirement on the coalescing of consecutive local edits. -/
theorem applyOp_compose (a b : OtOp) :
    ∀ s : List Char, inputLen a ≤ s.length →
      inputLen b ≤ (applyOp a s).length →
      applyOp (compose a b) s = applyOp b (applyOp a s) := by
  induction a, b using compose.induct with
  | case1 b =>
    intro s _ _
    simp [compose, applyOp]
  | case2 a hne =>
    intro s _ _
    match a, hne with
    | .skip n :: a, _ => simp [compose, applyOp]
    | .ins t :: a, _ => simp [compose, applyOp]
    | .del n :: a, _ => simp [compose, applyOp]
  | case3 n a b hbne ih =>
    intro s ha hb
    match b, hbne with
    | c :: b, _ =>
      have hcomp : compose (.del n :: a) (c :: b) = .del n :: compose a (c :: b) := by
        simp [compose]
      simp only [inputLen] at ha
      rw [hcomp]
      simp only [applyOp]
      exact ih (s.drop n) (by simp [List.length_drop]; omega) hb
  | case4 n a u b ih =>
    intro s ha hb
    have hcomp : compose (.skip n :: a) (.ins u :: b) =
        .ins u :: compose (.skip n :: a) b := by
      simp [compose]
    simp only [inputLen] at hb
    rw [hcomp]
    show u ++ applyOp (compose (OtComp.skip n :: a) b) s =
      u ++ applyOp b (applyOp (OtComp.skip n :: a) s)
    rw [ih s ha hb]
  | case5 a m b ih =>
    intro s ha hb
    have hcomp : compose (.skip 0 :: a) (.skip m :: b) =
        compose a (.skip m :: b) := by
      simp [compose]
    simp only [inputLen] at ha
    have hs : applyOp (OtComp.skip 0 :: a) s = applyOp a s := by
      simp [applyOp]
    rw [hs] at hb
    rw [hcomp, hs]
    exact ih s (by omega) hb
  | case6 n a b hn ih =>
    intro s ha hb
    have hcomp : compose (.skip n :: a) (.skip 0 :: b) =
        compose (.skip n :: a) b := by
      simp [compose, hn]
    simp only [inputLen] at hb
    rw [hcomp]
    have : applyOp (OtComp.skip 0 :: b) (applyOp (OtComp.skip n :: a) s) =
        applyOp b (applyOp (OtComp.skip n :: a) s) := by
      simp [applyOp]
    rw [this]
    exact ih s ha (by omega)
  | case7 n a m b hn hm ih =>
    intro s ha hb
    have hcomp : compose (.skip n :: a) (.skip m :: b) =
        .skip (min n m) ::
          compose (consSkip (n - min n m) a) (consSkip (m - min n m) b) := by
      simp [compose, hn, hm]
    simp only [inputLen] at ha hb
    have hXlen := length_applyOp a (s.drop n) (by simp [List.length_drop]; omega)
    rw [List.length_drop] at hXlen
    have hslen : (applyOp (OtComp.skip n :: a) s).length =
        n + (applyOp a (s.drop n)).length := by
      show (s.take n ++ applyOp a (s.drop n)).length = _
      rw [List.length_append, List.length_take]
      omega
    rw [hslen] at hb
    have htl : (s.take n).length = n := by
      rw [List.length_take]; omega
    rcases Nat.le_total n m with hnm | hnm
    · have hk : min n m = n := Nat.min_eq_left hnm
      rw [hk] at hcomp ih
      have h0 : consSkip (n - n) a = a := by simp [consSkip]
      rw [h0] at ih
      rw [hcomp, h0]
      show s.take n ++ applyOp (compose a (consSkip (m - n) b)) (s.drop n) =
        applyOp (OtComp.skip m :: b) (s.take n ++ applyOp a (s.drop n))
      rw [ih (s.drop n)
        (by rw [List.length_drop]; omega)
        (by rw [inputLen_consSkip]; omega)]
      rw [applyOp_consSkip]
      show _ = List.take m (s.take n ++ applyOp a (s.drop n)) ++
        applyOp b (List.drop m (s.take n ++ applyOp a (s.drop n)))
      rw [List.take_append_eq_append_take, List.drop_append_eq_append_drop,
        htl, @List.take_of_length_le _ m (s.take n) (by rw [htl]; omega),
        @List.drop_of_length_le _ m (s.take n) (by rw [htl]; omega)]
      simp
    · have hk : min n m = m := Nat.min_eq_right hnm
      rw [hk] at hcomp ih
      have h0 : consSkip (m - m) b = b := by simp [consSkip]
      rw [h0] at ih
      rw [hcomp, h0]
      show s.take m ++ applyOp (compose (consSkip (n - m) a) b) (s.drop m) =
        applyOp (OtComp.skip m :: b) (s.take n ++ applyOp a (s.drop n))
      have hdd : (s.drop m).drop (n - m) = s.drop n := by
        rw [List.drop_drop]
        congr 1
        omega
      rw [ih (s.drop m)
        (by rw [inputLen_consSkip, List.length_drop]; omega)
        (by
          rw [applyOp_consSkip, List.length_append, List.length_take, hdd,
            List.length_drop]
          omega)]
      rw [applyOp_consSkip, hdd]
      show _ = List.take m (s.take n ++ applyOp a (s.drop n)) ++
        applyOp b (List.drop m (s.take n ++ applyOp a (s.drop n)))
      rw [List.take_append_eq_append_take, List.drop_append_eq_append_drop,
        htl, List.take_take, List.drop_take]
      have h1 : min m n = m := Nat.min_eq_left hnm
      rw [h1]
      have h2 : m - n = 0 := by omega
      rw [h2]
      simp
  | case8 a m b ih =>
    intro s ha hb
    have hcomp : compose (.skip 0 :: a) (.del m :: b) =
        compose a (.del m :: b) := by
      simp [compose]
    simp only [inputLen] at ha
    have hs : applyOp (OtComp.skip 0 :: a) s = applyOp a s := by
      simp [applyOp]
    rw [hs] at hb
    rw [hcomp, hs]
    exact ih s (by omega) hb
  | case9 n a b hn ih =>
    intro s ha hb
    have hcomp : compose (.skip n :: a) (.del 0 :: b) =
        compose (.skip n :: a) b := by
      simp [compose, hn]
    simp only [inputLen] at hb
    rw [hcomp]
    have : applyOp (OtComp.del 0 :: b) (applyOp (OtComp.skip n :: a) s) =
        applyOp b (applyOp (OtComp.skip n :: a) s) := by
      simp [applyOp]
    rw [this]
    exact ih s ha (by omega)
  | case10 n a m b hn hm ih =>
    intro s ha hb
    have hcomp : compose (.skip n :: a) (.del m :: b) =
        .del (min n m) ::
          compose (consSkip (n - min n m) a) (consDel (m - min n m) b) := by
      simp [compose, hn, hm]
    simp only [inputLen] at ha hb
    have hslen : (applyOp (OtComp.skip n :: a) s).length =
        n + (applyOp a (s.drop n)).length := by
      show (s.take n ++ applyOp a (s.drop n)).length = _
      rw [List.length_append, List.length_take]
      omega
    rw [hslen] at hb
    have htl : (s.take n).length = n := by
      rw [List.length_take]; omega
    rcases Nat.le_total n m with hnm | hnm
    · have hk : min n m = n := Nat.min_eq_left hnm
      rw [hk] at hcomp ih
      have h0 : consSkip (n - n) a = a := by simp [consSkip]
      rw [h0] at ih
      rw [hcomp, h0]
      show applyOp (compose a (consDel (m - n) b)) (s.drop n) =
        applyOp (OtComp.del m :: b) (s.take n ++ applyOp a (s.drop n))
      rw [ih (s.drop n)
        (by rw [List.length_drop]; omega)
        (by rw [inputLen_consDel]; omega)]
      rw [applyOp_consDel]
      show _ = applyOp b (List.drop m (s.take n ++ applyOp a (s.drop n)))
      rw [List.drop_append_eq_append_drop, htl,
        @List.drop_of_length_le _ m (s.take n) (by rw [htl]; omega)]
      simp
    · have hk : min n m = m := Nat.min_eq_right hnm
      rw [hk] at hcomp ih
      have h0 : consDel (m - m) b = b := by simp [consDel]
      rw [h0] at ih
      rw [hcomp, h0]
      show applyOp (compose (consSkip (n - m) a) b) (s.drop m) =
        applyOp (OtComp.del m :: b) (s.take n ++ applyOp a (s.drop n))
      have hdd : (s.drop m).drop (n - m) = s.drop n := by
        rw [List.drop_drop]
        congr 1
        omega
      rw [ih (s.drop m)
        (by rw [inputLen_consSkip, List.length_drop]; omega)
        (by
          rw [applyOp_consSkip, List.length_append, List.length_take, hdd,
            List.length_drop]
          omega)]
      rw [applyOp_consSkip, hdd]
      show _ = applyOp b (List.drop m (s.take n ++ applyOp a (s.drop n)))
      rw [List.drop_append_eq_append_drop, htl, List.drop_take]
      have h2 : m - n = 0 := by omega
      rw [h2]
      simp
  | case11 t a u b ih =>
    intro s ha hb
    have hcomp : compose (.ins t :: a) (.ins u :: b) =
        .ins u :: compose (.ins t :: a) b := by
      simp [compose]
    simp only [inputLen] at hb
    rw [hcomp]
    show u ++ applyOp (compose (OtComp.ins t :: a) b) s =
      u ++ applyOp b (applyOp (OtComp.ins t :: a) s)
    rw [ih s ha hb]
  | case12 t a b ih =>
    intro s ha hb
    have hcomp : compose (.ins t :: a) (.skip 0 :: b) =
        compose (.ins t :: a) b := by
      simp [compose]
    simp only [inputLen] at hb
    rw [hcomp]
    have h1 : applyOp (OtComp.skip 0 :: b) (applyOp (OtComp.ins t :: a) s) =
        applyOp b (applyOp (OtComp.ins t :: a) s) := by
      simp [applyOp]
    rw [h1]
    exact ih s ha (by omega)
  | case13 t a m b hm hlt ih =>
    intro s ha hb
    have hcomp : compose (.ins t :: a) (.skip m :: b) =
        .ins (t.take m) :: compose (.ins (t.drop m) :: a) b := by
      simp [compose, hm, hlt]
    simp only [inputLen] at ha hb
    have hilen : (applyOp (OtComp.ins t :: a) s).length =
        t.length + (applyOp a s).length := by
      show (t ++ applyOp a s).length = _
      rw [List.length_append]
    rw [hilen] at hb
    have hilen2 : (applyOp (OtComp.ins (List.drop m t) :: a) s).length =
        (t.length - m) + (applyOp a s).length := by
      show (t.drop m ++ applyOp a s).length = _
      rw [List.length_append, List.length_drop]
    rw [hcomp]
    show List.take m t ++ applyOp (compose (OtComp.ins (List.drop m t) :: a) b) s =
      applyOp (OtComp.skip m :: b) (t ++ applyOp a s)
    rw [ih s ha (by rw [hilen2]; omega)]
    show List.take m t ++ applyOp b (List.drop m t ++ applyOp a s) =
      List.take m (t ++ applyOp a s) ++ applyOp b (List.drop m (t ++ applyOp a s))
    rw [List.take_append_eq_append_take, List.drop_append_eq_append_drop]
    have h1 : m - t.length = 0 := by omega
    rw [h1]
    simp
  | case14 t a m b hm hge ih =>
    intro s ha hb
    have hcomp : compose (.ins t :: a) (.skip m :: b) =
        .ins t :: compose a (consSkip (m - t.length) b) := by
      simp [compose, hm, hge]
    simp only [inputLen] at ha hb
    have hilen : (applyOp (OtComp.ins t :: a) s).length =
        t.length + (applyOp a s).length := by
      show (t ++ applyOp a s).length = _
      rw [List.length_append]
    rw [hilen] at hb
    rw [hcomp]
    show t ++ applyOp (compose a (consSkip (m - t.length) b)) s =
      applyOp (OtComp.skip m :: b) (t ++ applyOp a s)
    rw [ih s ha (by rw [inputLen_consSkip]; omega)]
    rw [applyOp_consSkip]
    show t ++ ((applyOp a s).take (m - t.length) ++
        applyOp b ((applyOp a s).drop (m - t.length))) =
      List.take m (t ++ applyOp a s) ++ applyOp b (List.drop m (t ++ applyOp a s))
    rw [List.take_append_eq_append_take, List.drop_append_eq_append_drop,
      @List.take_of_length_le _ m t (by omega),
      @List.drop_of_length_le _ m t (by omega)]
    simp
  | case15 t a b ih =>
    intro s ha hb
    have hcomp : compose (.ins t :: a) (.del 0 :: b) =
        compose (.ins t :: a) b := by
      simp [compose]
    simp only [inputLen] at hb
    rw [hcomp]
    have h1 : applyOp (OtComp.del 0 :: b) (applyOp (OtComp.ins t :: a) s) =
        applyOp b (applyOp (OtComp.ins t :: a) s) := by
      simp [applyOp]
    rw [h1]
    exact ih s ha (by omega)
  | case16 t a m b hm hlt ih =>
    intro s ha hb
    have hcomp : compose (.ins t :: a) (.del m :: b) =
        compose (.ins (t.drop m) :: a) b := by
      simp [compose, hm, hlt]
    simp only [inputLen] at ha hb
    have hilen : (applyOp (OtComp.ins t :: a) s).length =
        t.length + (applyOp a s).length := by
      show (t ++ applyOp a s).length = _
      rw [List.length_append]
    rw [hilen] at hb
    have hilen2 : (applyOp (OtComp.ins (List.drop m t) :: a) s).length =
        (t.length - m) + (applyOp a s).length := by
      show (t.drop m ++ applyOp a s).length = _
      rw [List.length_append, List.length_drop]
    rw [hcomp]
    rw [ih s ha (by rw [hilen2]; omega)]
    show applyOp b (List.drop m t ++ applyOp a s) =
      applyOp b (List.drop m (t ++ applyOp a s))
    rw [List.drop_append_eq_append_drop]
    have h1 : m - t.length = 0 := by omega
    rw [h1]
    simp
  | case17 t a m b hm hge ih =>
    intro s ha hb
    have hcomp : compose (.ins t :: a) (.del m :: b) =
        compose a (consDel (m - t.length) b) := by
      simp [compose, hm, hge]
    simp only [inputLen] at ha hb
    have hilen : (applyOp (OtComp.ins t :: a) s).length =
        t.length + (applyOp a s).length := by
      show (t ++ applyOp a s).length = _
      rw [List.length_append]
    rw [hilen] at hb
    rw [hcomp]
    rw [ih s ha (by rw [inputLen_consDel]; omega)]
    rw [applyOp_consDel]
    show applyOp b ((applyOp a s).drop (m - t.length)) =
      applyOp b (List.drop m (t ++ applyOp a s))
    rw [List.drop_append_eq_append_drop,
      @List.drop_of_length_le _ m t (by omega)]
    simp

end OtText

/-! ## Guard membership lemmas -/

namespace RemoteOpGuard

theorem mem_addKey (p : List String) (k x : String) :
    x ∈ addKey p k ↔ x ∈ p ∨ x = k := by
  unfold addKey
  split
  · rename_i h
    rw [List.elem_iff] at h
    constructor
    · exact fun hx => Or.inl hx
    · rintro (hx | rfl)
      · exact hx
      · exact h
  · simp [List.mem_append]

theorem mem_addKeys (p keys : List String) (x : String) :
    x ∈ addKeys p keys ↔ x ∈ p ∨ x ∈ keys := by
  induction keys generalizing p with
  | nil => simp [addKeys]
  | cons k rest ih =>
    show x ∈ addKeys (addKey p k) rest ↔ _
    rw [ih, mem_addKey]
    simp only [List.mem_cons]
    tauto

theorem mem_removeKey (p : List String) (k x : String) :
    x ∈ removeKey p k ↔ x ∈ p ∧ x ≠ k := by
  simp [removeKey]

theorem mem_removeKeys (p keys : List String) (x : String) :
    x ∈ removeKeys p keys ↔ x ∈ p ∧ x ∉ keys := by
  induction keys generalizing p with
  | nil => simp [removeKeys]
  | cons k rest ih =>
    show x ∈ removeKeys (removeKey p k) rest ↔ _
    rw [ih, mem_removeKey]
    simp [List.mem_cons]
    tauto

theorem isActive_iff_mem (pending : List String) (k : String) :
    isActive pending k = true ↔ k ∈ pending := by
  simp [isActive, List.elem_iff]

theorem isActive_eq_false_iff (pending : List String) (k : String) :
    isActive pending k = false ↔ k ∉ pending := by
  rw [← isActive_iff_mem]
  cases isActive pending k <;> simp

theorem run_during (pending keys : List String) {ε α : Type}
    (outcome : Except ε α) :
    (run pending keys outcome).during = addKeys pending keys := by
  cases outcome <;> rfl

theorem run_after (pending keys : List String) {ε α : Type}
    (outcome : Except ε α) :
    (run pending keys outcome).after = removeKeys (addKeys pending keys) keys := by
  cases outcome <;> rfl

end RemoteOpGuard

/-! ## Claim theorems -/

/-- C10: RemoteOpGuard.run releases the guard for every supplied key even
when the wrapped action throws: while the action runs the guard is active
for exactly the supplied keys plus the keys that were already pending, and
after run settles every supplied key is inactive again, with the resulting
pending set independent of whether the action succeeded or failed. -/
theorem c10_run_releases_guard (pending keys : List String)
    (outcome : Except String Unit) :
    (∀ k, RemoteOpGuard.isActive (RemoteOpGuard.run pending keys outcome).during k = true ↔
      (k ∈ keys ∨ RemoteOpGuard.isActive pending k = true)) ∧
    (∀ k, k ∈ keys →
      RemoteOpGuard.isActive (RemoteOpGuard.run pending keys outcome).after k = false) ∧
    (∀ outcome2 : Except String Unit,
      (RemoteOpGuard.run pending keys outcome).after =
        (RemoteOpGuard.run pending keys outcome2).after) := by
  refine ⟨?_, ?_, ?_⟩
  · intro k
    rw [RemoteOpGuard.run_during, RemoteOpGuard.isActive_iff_mem,
      RemoteOpGuard.mem_addKeys, RemoteOpGuard.isActive_iff_mem]
    tauto
  · intro k hk
    rw [RemoteOpGuard.run_after, RemoteOpGuard.isActive_eq_false_iff,
      RemoteOpGuard.mem_removeKeys]
    tauto
  · intro outcome2
    rw [RemoteOpGuard.run_after, RemoteOpGuard.run_after]

/-- Witness for C10 at a concrete input: after a failed run over keys
`a, b` with `x` already pending, key `a` is no longer active. -/
theorem c10_run_releases_guard_witness :
    ("a" : String) ∈ ["a", "b"] ∧
    RemoteOpGuard.isActive
      (RemoteOpGuard.run ["x"] ["a", "b"]
        (Except.error "boom" : Except String Unit)).after "a" = false :=
  ⟨by decide,
    (c10_run_releases_guard ["x"] ["a", "b"] (Except.error "boom")).2.1 "a" (by decide)⟩

/-- C2: a change event that fires for a document path while the echo guard
is active for that path produces no outgoing operation — the bridge state is
left entirely unchanged — and the guard, keyed per document path, is active
for the path throughout the wrapped update and released only once the
update has completed (whether it succeeded or failed). -/
theorem c2_echo_suppression (st : BridgeState) (e : ChangeEvent) (path : String)
    (hpath : e.filePath = some path)
    (hactive : RemoteOpGuard.isActive st.guard path = true) :
    ShareDBBridge.onLocalDocumentChange st e = st ∧
    (∀ (pending : List String) (outcome : Except String Unit),
      RemoteOpGuard.isActive (RemoteOpGuard.run pending [path] outcome).during path = true ∧
      RemoteOpGuard.isActive (RemoteOpGuard.run pending [path] outcome).after path = false) := by
  constructor
  · unfold ShareDBBridge.onLocalDocumentChange
    rw [hpath]
    split
    · rfl
    · split
      · rfl
      · simp [hactive]
  · intro pending outcome
    constructor
    · rw [RemoteOpGuard.run_during, RemoteOpGuard.isActive_iff_mem,
        RemoteOpGuard.mem_addKeys]
      simp
    · rw [RemoteOpGuard.run_after, RemoteOpGuard.isActive_eq_false_iff,
        RemoteOpGuard.mem_removeKeys]
      simp

/-- Witness for C2 at a concrete input: with the guard held for `a.txt`, a
change event for `a.txt` leaves the bridge state unchanged. -/
theorem c2_echo_suppression_witness :
    ({ bridgeWithPending with guard := ["a.txt"] } : BridgeState).guard = ["a.txt"] ∧
    ShareDBBridge.onLocalDocumentChange { bridgeWithPending with guard := ["a.txt"] }
        ⟨"file", some "a.txt", [⟨0, 0, "z".toList⟩]⟩ =
      { bridgeWithPending with guard := ["a.txt"] } :=
  ⟨rfl,
    (c2_echo_suppression { bridgeWithPending with guard := ["a.txt"] }
      ⟨"file", some "a.txt", [⟨0, 0, "z".toList⟩]⟩ "a.txt" rfl (by decide)).1⟩

/-- C4: applying a FullSync with content C and version V to a document that
can be opened locally makes a subsequent read return exactly C at version V,
whatever the previous content and version were; the snapshot is adopted
unconditionally, bypassing incremental apply. -/
theorem c4_fullsync_roundtrip (st : SyncState) (p : String) (content : List Char)
    (v : Nat) (old : List Char) (hdoc : st.contents p = some old) :
    (DocumentSync.handleFullSync st ⟨p, content, v⟩).contents p = some content ∧
    DocumentSync.getVersion (DocumentSync.handleFullSync st ⟨p, content, v⟩) p = v := by
  unfold DocumentSync.handleFullSync
  simp only [DocumentSync.getVersion]
  rw [show ({ st with fileVersions := setKey st.fileVersions p (some v) } : SyncState).contents
      = st.contents from rfl]
  rw [hdoc]
  simp [setKey]

/-- Witness for C4 at a concrete input: a FullSync of `NEW` at version 42
onto the rebase-scenario state yields content `NEW` at version 42. -/
theorem c4_fullsync_roundtrip_witness :
    scenarioC1.contents "a.txt" = some "AXCD".toList ∧
    (DocumentSync.handleFullSync scenarioC1 ⟨"a.txt", "NEW".toList, 42⟩).contents "a.txt"
      = some "NEW".toList ∧
    DocumentSync.getVersion
      (DocumentSync.handleFullSync scenarioC1 ⟨"a.txt", "NEW".toList, 42⟩) "a.txt" = 42 :=
  ⟨by decide,
    (c4_fullsync_roundtrip scenarioC1 "a.txt" "NEW".toList 42 "AXCD".toList (by decide)).1,
    (c4_fullsync_roundtrip scenarioC1 "a.txt" "NEW".toList 42 "AXCD".toList (by decide)).2⟩

/-- C1 counterexample: in the concrete rebase scenario (host content `ABCD`
at version 5, host edit replacing `B` with `X`, concurrent client operation
based on version 5 deleting `CD` and inserting `EF`), the incoming change is
NOT transformed per the claimed host-priority rule: its delete length stays
2 instead of being truncated to 0, because the client edit starts exactly at
the end of the host edit's range and is therefore classified as
entirely-after, and the rebased content is `AXEF`, not the `AXEFCD` the
claimed rule (delete truncated, pure insert at offset
prior.rangeOffset + prior.text.length) would produce. -/
theorem c1_scenario_counterexample :
    DocumentSync.transformChanges scenarioC1 "a.txt" 5 scenarioC1Edit.changes
      = [⟨2, 2, "EF".toList⟩] ∧
    DocumentSync.transformSingle ⟨2, 2, "EF".toList⟩ ⟨1, 1, "X".toList⟩
      ≠ ⟨2, 0, "EF".toList⟩ ∧
    (DocumentSync.handleRemoteEdit scenarioC1 true scenarioC1Edit).contents "a.txt"
      = some "AXEF".toList ∧
    DocumentSync.applyTextChange "AXCD".toList ⟨2, 0, "EF".toList⟩
      = "AXEFCD".toList ∧
    "AXEF".toList ≠ "AXEFCD".toList :=
  ⟨rfl, by decide, rfl, rfl, by decide⟩

/-- C1 (amended): whenever the incoming change's range properly overlaps the
prior (host) change's range — it starts before the prior range's end and
ends after the prior range's start — transformSingle preserves the host
edit by truncating the incoming delete to zero, keeps the incoming
replacement text and repositions the change immediately after the host's
replacement text (offset prior.rangeOffset + prior.text.length).  In the
concrete scenario the client change is adjacent, not overlapping: it is
passed through unchanged (shift zero), its delete survives, and the
deterministic rebased result is `AXEF` at version 7. -/
theorem c1_overlap_rule (incoming prior : TextChange)
    (h1 : incoming.rangeOffset < prior.rangeOffset + prior.rangeLength)
    (h2 : prior.rangeOffset < incoming.rangeOffset + incoming.rangeLength) :
    DocumentSync.transformSingle incoming prior =
      ⟨prior.rangeOffset + prior.text.length, 0, incoming.text⟩ ∧
    DocumentSync.transformChanges scenarioC1 "a.txt" 5 scenarioC1Edit.changes
      = [⟨2, 2, "EF".toList⟩] ∧
    (DocumentSync.handleRemoteEdit scenarioC1 true scenarioC1Edit).contents "a.txt"
      = some "AXEF".toList ∧
    DocumentSync.getVersion
      (DocumentSync.handleRemoteEdit scenarioC1 true scenarioC1Edit) "a.txt" = 7 := by
  refine ⟨?_, rfl, rfl, rfl⟩
  simp only [DocumentSync.transformSingle]
  rw [if_neg (by omega), if_neg (by omega)]
  simp only [TextChange.mk.injEq]
  refine ⟨by omega, by simp⟩

/-- Witness for C1 (amended) at a concrete proper overlap: the host replaced
offsets 1 to 3 with `X`, the incoming change deletes offsets 2 to 4, so the
transform yields a pure insert at offset 2. -/
theorem c1_overlap_rule_witness :
    (2 : Nat) < 1 + 2 ∧ (1 : Nat) < 2 + 2 ∧
    DocumentSync.transformSingle ⟨2, 2, "EF".toList⟩ ⟨1, 2, "X".toList⟩
      = ⟨2, 0, "EF".toList⟩ := by
  refine ⟨by decide, by decide, ?_⟩
  have h := (c1_overlap_rule ⟨2, 2, "EF".toList⟩ ⟨1, 2, "X".toList⟩
    (by decide) (by decide)).1
  simpa using h

/-- C5 counterexample: a Hello whose protocolVersion differs from the host's
(3 against PROTOCOL_VERSION = 2) but whose passphrase matches is answered
with Welcome — the host performs no protocol-version validation at all, so
the claimed first validation step (reject VERSION_MISMATCH and close) does
not happen. -/
theorem c5_counterexample :
    HostSession.onClientConnected true "abc"
        ⟨"client", "ws", some "abc", PROTOCOL_VERSION + 1⟩
      = HostSession.HelloResponse.welcome ∧
    PROTOCOL_VERSION + 1 ≠ PROTOCOL_VERSION := by decide

/-- C5 (amended): the host never validates the protocolVersion of a Hello —
it accepts any version, checking only (after the workspace check) that the
configured non-empty passphrase matches exactly, else AUTH_FAILED; the
protocol-version check is performed by the client against the Welcome's
protocolVersion, closing terminally on mismatch (no VERSION_MISMATCH Error
from the host); and a second concurrent connection is rejected SESSION_FULL
by the server at connection time, before the Hello is processed. -/
theorem c5_handshake_validation (hello : HelloPayload) (pass : String)
    (hpass : pass ≠ "") :
    (hello.passphrase ≠ some pass →
      HostSession.onClientConnected true pass hello =
        HostSession.HelloResponse.rejectAuthFailed) ∧
    (hello.passphrase = some pass →
      HostSession.onClientConnected true pass hello =
        HostSession.HelloResponse.welcome) ∧
    (∀ hello2 : HelloPayload,
      HostSession.onClientConnected true "" hello2 = HostSession.HelloResponse.welcome) ∧
    PairProgServer.handleNewConnection true = PairProgServer.ConnResponse.rejectSessionFull ∧
    PairProgServer.handleNewConnection false = PairProgServer.ConnResponse.accepted ∧
    (∀ v : Nat, v ≠ PROTOCOL_VERSION →
      PairProgClient.handleWelcome v = PairProgClient.WelcomeResult.versionMismatchClose) ∧
    PairProgClient.handleWelcome PROTOCOL_VERSION = PairProgClient.WelcomeResult.connected := by
  refine ⟨?_, ?_, ?_, by decide, by decide, ?_, by decide⟩
  · intro hmis
    simp [HostSession.onClientConnected, hpass, hmis]
  · intro hok
    simp [HostSession.onClientConnected, hok]
  · intro hello2
    simp [HostSession.onClientConnected]
  · intro v hv
    simp [PairProgClient.handleWelcome, hv]

/-- Witness for C5 (amended) at concrete inputs: with passphrase `abc`
configured, a wrong passphrase is rejected AUTH_FAILED and the right one is
welcomed; version 3 is rejected by the client. -/
theorem c5_handshake_validation_witness :
    ("abc" : String) ≠ "" ∧
    HostSession.onClientConnected true "abc" ⟨"u", "ws", some "wrong", 2⟩
      = HostSession.HelloResponse.rejectAuthFailed ∧
    HostSession.onClientConnected true "abc" ⟨"u", "ws", some "abc", 2⟩
      = HostSession.HelloResponse.welcome ∧
    PairProgClient.handleWelcome 3 = PairProgClient.WelcomeResult.versionMismatchClose :=
  ⟨by decide,
    (c5_handshake_validation ⟨"u", "ws", some "wrong", 2⟩ "abc" (by decide)).1 (by decide),
    (c5_handshake_validation ⟨"u", "ws", some "abc", 2⟩ "abc" (by decide)).2.1 (by decide),
    (c5_handshake_validation ⟨"u", "ws", some "abc", 2⟩ "abc" (by decide)).2.2.2.2.2.1 3
      (by decide)⟩

/-- C6 counterexample: dispose cancels the armed batch timer and discards
the still-pending operation for `a.txt` without transmitting it — the
submitted list stays empty — so a pending edit is silently dropped on
session teardown rather than force-flushed. -/
theorem c6_dispose_discards_pending :
    bridgeWithPending.pendingOps "a.txt" = some [OtComp.ins "x".toList] ∧
    bridgeWithPending.batchTimers "a.txt" = true ∧
    (ShareDBBridge.dispose bridgeWithPending).submitted = [] ∧
    (ShareDBBridge.dispose bridgeWithPending).pendingOps "a.txt" = none ∧
    (ShareDBBridge.dispose bridgeWithPending).batchTimers "a.txt" = false := by decide

/-- C6 (amended): consecutive local edits within the batching window are
coalesced by composing each new operation onto the pending one, and the
composition preserves the net effect of applying both edits in sequence;
scheduling also (re)arms the per-file flush timer; but on session teardown
dispose cancels all timers and discards all pending operations without
transmitting them. -/
theorem c6_batching_window (st : BridgeState) (p : String) (op existing : OtOp)
    (hpend : st.pendingOps p = some existing) :
    ((ShareDBBridge.scheduleOp st p op).pendingOps p =
        some (OtText.compose existing op) ∧
      (ShareDBBridge.scheduleOp st p op).batchTimers p = true) ∧
    (∀ st2 : BridgeState, st2.pendingOps p = none →
      (ShareDBBridge.scheduleOp st2 p op).pendingOps p = some op ∧
      (ShareDBBridge.scheduleOp st2 p op).batchTimers p = true) ∧
    (∀ s : List Char, OtText.inputLen existing ≤ s.length →
      OtText.inputLen op ≤ (OtText.applyOp existing s).length →
      OtText.applyOp (OtText.compose existing op) s =
        OtText.applyOp op (OtText.applyOp existing s)) ∧
    (∀ st3 : BridgeState,
      (ShareDBBridge.dispose st3).submitted = st3.submitted ∧
      (ShareDBBridge.dispose st3).pendingOps p = none ∧
      (ShareDBBridge.dispose st3).batchTimers p = false) := by
  refine ⟨?_, ?_, ?_, ?_⟩
  · constructor
    · simp [ShareDBBridge.scheduleOp, hpend, setKey]
    · simp [ShareDBBridge.scheduleOp, setKey]
  · intro st2 hnone
    constructor
    · simp [ShareDBBridge.scheduleOp, hnone, setKey]
    · simp [ShareDBBridge.scheduleOp, setKey]
  · intro s hs1 hs2
    exact OtText.applyOp_compose existing op s hs1 hs2
  · intro st3
    exact ⟨rfl, rfl, rfl⟩

/-- Witness for C6 (amended) at a concrete input: scheduling an op onto the
pending op of `a.txt` composes them, and the composition of the two sample
edits acts on `hello` like applying them in sequence. -/
theorem c6_batching_window_witness :
    bridgeWithPending.pendingOps "a.txt" = some [OtComp.ins "x".toList] ∧
    (ShareDBBridge.scheduleOp bridgeWithPending "a.txt" [OtComp.skip 1]).pendingOps "a.txt"
      = some (OtText.compose [OtComp.ins "x".toList] [OtComp.skip 1]) ∧
    OtText.inputLen [OtComp.ins "x".toList] ≤ ("hello".toList).length ∧
    OtText.inputLen [OtComp.skip 1]
      ≤ (OtText.applyOp [OtComp.ins "x".toList] "hello".toList).length ∧
    OtText.applyOp (OtText.compose [OtComp.ins "x".toList] [OtComp.skip 1]) "hello".toList
      = OtText.applyOp [OtComp.skip 1]
          (OtText.applyOp [OtComp.ins "x".toList] "hello".toList) :=
  ⟨by decide,
    (c6_batching_window bridgeWithPending "a.txt" [OtComp.skip 1]
      [OtComp.ins "x".toList] (by decide)).1.1,
    by decide, by decide,
    (c6_batching_window bridgeWithPending "a.txt" [OtComp.skip 1]
      [OtComp.ins "x".toList] (by decide)).2.2.1 "hello".toList (by decide) (by decide)⟩

namespace PairProgClient

theorem step_intentional_quiet (st : ClientState) (e : ClientEvent)
    (h1 : st.intentionalDisconnect = true) (h2 : st.reconnectTimerSet = false) :
    (step st e).1.intentionalDisconnect = true ∧
    (step st e).1.reconnectTimerSet = false ∧
    ∀ n, ClientEmit.reconnecting n ∉ (step st e).2 := by
  cases e <;> simp [step, h1, h2, attemptReconnect]

theorem runTrace_no_reconnecting (st : ClientState)
    (h1 : st.intentionalDisconnect = true) (h2 : st.reconnectTimerSet = false)
    (trace : List ClientEvent) :
    ∀ n, ClientEmit.reconnecting n ∉ (runTrace st trace).2 := by
  induction trace generalizing st with
  | nil => simp [runTrace]
  | cons e rest ih =>
    intro n
    have hstep := step_intentional_quiet st e h1 h2
    simp only [runTrace, List.mem_append]
    rintro (hmem | hmem)
    · exact hstep.2.2 n hmem
    · exact ih (step st e).1 hstep.1 hstep.2.1 n hmem

end PairProgClient

/-- C7: on an unexpected close with the cap not yet reached, the client
increments its attempt counter, arms the retry timer and emits
`reconnecting` with the new attempt number; the counter never exceeds the
cap of 15; once the counter has reached the cap a further unexpected close
emits a terminal `disconnected` and arms no timer; and after an intentional
disconnect or terminal handshake rejection (which clears the timer) no
`reconnecting` event is ever emitted again. -/
theorem c7_reconnection_policy (st : PairProgClient.ClientState) :
    (st.intentionalDisconnect = false →
      st.reconnectAttempts < PairProgClient.MAX_RECONNECT_ATTEMPTS →
      PairProgClient.step st PairProgClient.ClientEvent.socketClosed =
        ({ st with
            reconnectAttempts := st.reconnectAttempts + 1
            reconnectTimerSet := true },
          [PairProgClient.ClientEmit.reconnecting (st.reconnectAttempts + 1)])) ∧
    (st.intentionalDisconnect = false →
      PairProgClient.MAX_RECONNECT_ATTEMPTS ≤ st.reconnectAttempts →
      PairProgClient.step st PairProgClient.ClientEvent.socketClosed =
        (st, [PairProgClient.ClientEmit.disconnected])) ∧
    (st.reconnectAttempts ≤ PairProgClient.MAX_RECONNECT_ATTEMPTS →
      ∀ e, (PairProgClient.step st e).1.reconnectAttempts ≤
        PairProgClient.MAX_RECONNECT_ATTEMPTS) ∧
    (st.intentionalDisconnect = true → st.reconnectTimerSet = false →
      ∀ (trace : List PairProgClient.ClientEvent) (n : Nat),
        PairProgClient.ClientEmit.reconnecting n ∉
          (PairProgClient.runTrace st trace).2) := by
  refine ⟨?_, ?_, ?_, ?_⟩
  · intro h1 h2
    simp only [PairProgClient.step, h1, Bool.false_eq_true, if_false]
    unfold PairProgClient.attemptReconnect
    rw [if_neg (by omega)]
    rw [h1]
  · intro h1 h2
    simp only [PairProgClient.step, h1, Bool.false_eq_true, if_false]
    unfold PairProgClient.attemptReconnect
    rw [if_pos h2]
  · intro h e
    cases e <;>
      simp only [PairProgClient.step, PairProgClient.attemptReconnect] <;>
      (try split_ifs) <;> (try simp_all) <;> omega
  · intro h1 h2 trace n
    exact PairProgClient.runTrace_no_reconnecting st h1 h2 trace n

/-- Witness for C7 at concrete inputs: a fresh client retries with attempt 1
on an unexpected close; a client at the cap of 15 reports a terminal
disconnect; and after a terminal rejection a later close and timer event
emit no reconnecting. -/
theorem c7_reconnection_policy_witness :
    PairProgClient.step ⟨0, false, false⟩ PairProgClient.ClientEvent.socketClosed =
      (⟨1, false, true⟩, [PairProgClient.ClientEmit.reconnecting 1]) ∧
    PairProgClient.step ⟨15, false, false⟩ PairProgClient.ClientEvent.socketClosed =
      (⟨15, false, false⟩, [PairProgClient.ClientEmit.disconnected]) ∧
    PairProgClient.ClientEmit.reconnecting 1 ∉
      (PairProgClient.runTrace ⟨3, true, false⟩
        [PairProgClient.ClientEvent.socketClosed,
          PairProgClient.ClientEvent.reconnectFailed]).2 := by
  refine ⟨?_, ?_, ?_⟩
  · have h := (c7_reconnection_policy ⟨0, false, false⟩).1 rfl (by decide)
    simpa using h
  · have h := (c7_reconnection_policy ⟨15, false, false⟩).2.1 rfl (by decide)
    simpa using h
  · exact (c7_reconnection_policy ⟨3, true, false⟩).2.2.2 rfl rfl _ 1

namespace PairProgServer

theorem heartbeatTick_noClient (st : ServerState) (h : st.hasClient = false) :
    heartbeatTick st = ⟨st, false, false⟩ := by
  unfold heartbeatTick
  rw [if_pos (by simp [h])]

theorem heartbeatTick_count (st : ServerState) (h : st.hasClient = true)
    (hlt : st.missedPings < MAX_MISSED_PINGS) :
    heartbeatTick st = ⟨⟨true, st.missedPings + 1⟩, false, true⟩ := by
  unfold heartbeatTick
  rw [if_neg (by simp [h]), if_neg (by omega)]

theorem heartbeatTick_terminate (st : ServerState) (h : st.hasClient = true)
    (hge : MAX_MISSED_PINGS ≤ st.missedPings) :
    heartbeatTick st = ⟨⟨false, 0⟩, true, false⟩ := by
  unfold heartbeatTick
  rw [if_neg (by simp [h]), if_pos (by omega)]

theorem ticksWithoutPong_safe (j k : Nat) (h : k + j ≤ MAX_MISSED_PINGS) :
    ticksWithoutPong ⟨true, k⟩ j = (⟨true, k + j⟩, false) := by
  induction j generalizing k with
  | zero => simp [ticksWithoutPong]
  | succ j ih =>
    have htick : heartbeatTick ⟨true, k⟩ = ⟨⟨true, k + 1⟩, false, true⟩ :=
      heartbeatTick_count ⟨true, k⟩ rfl
        (by show k < MAX_MISSED_PINGS; omega)
    simp only [ticksWithoutPong, htick]
    rw [ih (k + 1) (by omega)]
    simp only [Bool.false_or]
    have harith : k + 1 + j = k + (j + 1) := by omega
    rw [harith]

theorem ticksWithoutPong_add (st : ServerState) (m n : Nat) :
    ticksWithoutPong st (m + n) =
      ((ticksWithoutPong (ticksWithoutPong st m).1 n).1,
        (ticksWithoutPong st m).2 || (ticksWithoutPong (ticksWithoutPong st m).1 n).2) := by
  induction m generalizing st with
  | zero => simp [ticksWithoutPong]
  | succ m ih =>
    have harith : m + 1 + n = (m + n) + 1 := by omega
    rw [harith]
    simp only [ticksWithoutPong]
    rw [ih (heartbeatTick st).state]
    simp [Bool.or_assoc]

end PairProgServer

/-- C8: the host pings on a fixed interval while a client is connected; a
Pong resets the missed counter to zero; a tick with the counter below the
threshold of 5 just counts and pings, a tick that pushes the count past the
threshold forcibly terminates the connection and reports it disconnected;
so starting from a fresh Pong, the connection survives exactly 5 pong-less
intervals and is terminated on the 6th, never before and always at that
point while it stays open. -/
theorem c8_heartbeat_threshold (st : PairProgServer.ServerState) :
    (PairProgServer.handlePong st).missedPings = 0 ∧
    (st.hasClient = true → st.missedPings < PairProgServer.MAX_MISSED_PINGS →
      PairProgServer.heartbeatTick st = ⟨⟨true, st.missedPings + 1⟩, false, true⟩) ∧
    (st.hasClient = true → PairProgServer.MAX_MISSED_PINGS ≤ st.missedPings →
      PairProgServer.heartbeatTick st = ⟨⟨false, 0⟩, true, false⟩) ∧
    (st.hasClient = false →
      PairProgServer.heartbeatTick st = ⟨st, false, false⟩) ∧
    (∀ j, j ≤ PairProgServer.MAX_MISSED_PINGS →
      PairProgServer.ticksWithoutPong ⟨true, 0⟩ j = (⟨true, j⟩, false)) ∧
    (∀ j, PairProgServer.MAX_MISSED_PINGS < j →
      (PairProgServer.ticksWithoutPong ⟨true, 0⟩ j).2 = true) := by
  refine ⟨rfl, ?_, ?_, ?_, ?_, ?_⟩
  · exact PairProgServer.heartbeatTick_count st
  · exact PairProgServer.heartbeatTick_terminate st
  · exact PairProgServer.heartbeatTick_noClient st
  · intro j hj
    have h := PairProgServer.ticksWithoutPong_safe j 0 (by omega)
    simpa using h
  · intro j hj
    have h6 : (PairProgServer.ticksWithoutPong ⟨true, 0⟩ 6).2 = true := by decide
    have hsplit := PairProgServer.ticksWithoutPong_add ⟨true, 0⟩ 6 (j - 6)
    have harith : j = 6 + (j - 6) := by
      unfold PairProgServer.MAX_MISSED_PINGS at hj
      omega
    rw [harith, hsplit, h6]
    simp

/-- Witness for C8 at concrete inputs: with a client connected, a tick at
count 0 pings, a tick at count 5 terminates, five pong-less intervals leave
the connection alive, and the sixth terminates it. -/
theorem c8_heartbeat_threshold_witness :
    PairProgServer.heartbeatTick ⟨true, 0⟩ = ⟨⟨true, 1⟩, false, true⟩ ∧
    PairProgServer.heartbeatTick ⟨true, 5⟩ = ⟨⟨false, 0⟩, true, false⟩ ∧
    PairProgServer.ticksWithoutPong ⟨true, 0⟩ 5 = (⟨true, 5⟩, false) ∧
    (PairProgServer.ticksWithoutPong ⟨true, 0⟩ 6).2 = true :=
  ⟨(c8_heartbeat_threshold ⟨true, 0⟩).2.1 rfl (by decide),
    (c8_heartbeat_threshold ⟨true, 5⟩).2.2.1 rfl (by decide),
    (c8_heartbeat_threshold ⟨true, 0⟩).2.2.2.2.1 5 (by decide),
    (c8_heartbeat_threshold ⟨true, 0⟩).2.2.2.2.2 6 (by decide)⟩

namespace PairProgFileSystemProvider

theorem find?_erasePending (st : FetchState) (p : String) :
    List.find? (fun kv => kv.1 = p) (erasePending st p) = none := by
  rw [List.find?_eq_none]
  intro kv hkv
  have hmem := List.mem_filter.mp hkv
  simpa using hmem.2

theorem lookupPending_erase (st : FetchState) (res : List (Nat × List Char))
    (p : String) :
    lookupPending ⟨erasePending st p, res⟩ p = none := by
  show (List.find? (fun kv => kv.1 = p) (erasePending st p)).map (fun kv => kv.2) = none
  rw [find?_erasePending st p]
  rfl

theorem stepFetch_response_none (st2 : FetchState) (p : String) (c : List Char)
    (hnone : lookupPending st2 p = none) :
    stepFetch st2 (FetchEvent.response p c) = st2 := by
  simp only [stepFetch]
  rw [hnone]

theorem stepFetch_timeout_none (st2 : FetchState) (p : String) (tid : Nat)
    (hnone : lookupPending st2 p = none) :
    stepFetch st2 (FetchEvent.timeoutFired p tid) = st2 := by
  simp only [stepFetch]
  rw [hnone]

end PairProgFileSystemProvider

/-- C9 counterexample: a second concurrent fetch for the same path
overwrites the pending resolver of the first, so one of the two promises is
stranded: after both 10-second timers fire and the host response arrives,
request 1 has been resolved (empty) but request 2 never resolves — no
pending entry remains, so no later event can resolve it, contradicting the
claim that every content-fetch request resolves. -/
theorem c9_counterexample :
    PairProgFileSystemProvider.isResolved
      (PairProgFileSystemProvider.runFetchTrace
        PairProgFileSystemProvider.emptyFetchState
        [PairProgFileSystemProvider.FetchEvent.request "f" 1,
          PairProgFileSystemProvider.FetchEvent.request "f" 2,
          PairProgFileSystemProvider.FetchEvent.timeoutFired "f" 1,
          PairProgFileSystemProvider.FetchEvent.timeoutFired "f" 2,
          PairProgFileSystemProvider.FetchEvent.response "f" "abc".toList]) 1 = true ∧
    PairProgFileSystemProvider.isResolved
      (PairProgFileSystemProvider.runFetchTrace
        PairProgFileSystemProvider.emptyFetchState
        [PairProgFileSystemProvider.FetchEvent.request "f" 1,
          PairProgFileSystemProvider.FetchEvent.request "f" 2,
          PairProgFileSystemProvider.FetchEvent.timeoutFired "f" 1,
          PairProgFileSystemProvider.FetchEvent.timeoutFired "f" 2,
          PairProgFileSystemProvider.FetchEvent.response "f" "abc".toList]) 2 = false ∧
    (PairProgFileSystemProvider.runFetchTrace
        PairProgFileSystemProvider.emptyFetchState
        [PairProgFileSystemProvider.FetchEvent.request "f" 1,
          PairProgFileSystemProvider.FetchEvent.request "f" 2,
          PairProgFileSystemProvider.FetchEvent.timeoutFired "f" 1,
          PairProgFileSystemProvider.FetchEvent.timeoutFired "f" 2,
          PairProgFileSystemProvider.FetchEvent.response "f" "abc".toList]).pending
      = [] := by decide

/-- C9 (amended): a fetch request that is the only outstanding one for its
path always resolves: a response arriving while the request is pending
resolves it with the host content and removes the path from the pending
map; the request's 10-second timeout, firing while the path is pending,
resolves it with empty content and removes the path; a response or timeout
for a path with no pending entry is ignored, so a late response after the
timeout changes nothing; whichever of response and timeout comes first, the
request ends resolved.  (A second concurrent request for the same path
overwrites the first's resolver and can strand one of the two promises.) -/
theorem c9_fetch_resolution (st : PairProgFileSystemProvider.FetchState)
    (p : String) (id : Nat) (c : List Char)
    (hpend : PairProgFileSystemProvider.lookupPending st p = some id) :
    ((PairProgFileSystemProvider.stepFetch st
        (PairProgFileSystemProvider.FetchEvent.response p c)).resolvedList
      = st.resolvedList ++ [(id, c)] ∧
      PairProgFileSystemProvider.lookupPending
        (PairProgFileSystemProvider.stepFetch st
          (PairProgFileSystemProvider.FetchEvent.response p c)) p = none) ∧
    (∀ tid,
      (PairProgFileSystemProvider.stepFetch st
        (PairProgFileSystemProvider.FetchEvent.timeoutFired p tid)).resolvedList
        = st.resolvedList ++ [(tid, [])] ∧
      PairProgFileSystemProvider.lookupPending
        (PairProgFileSystemProvider.stepFetch st
          (PairProgFileSystemProvider.FetchEvent.timeoutFired p tid)) p = none) ∧
    (∀ st2 : PairProgFileSystemProvider.FetchState,
      PairProgFileSystemProvider.lookupPending st2 p = none →
      PairProgFileSystemProvider.stepFetch st2
        (PairProgFileSystemProvider.FetchEvent.response p c) = st2 ∧
      ∀ tid, PairProgFileSystemProvider.stepFetch st2
        (PairProgFileSystemProvider.FetchEvent.timeoutFired p tid) = st2) ∧
    PairProgFileSystemProvider.isResolved
      (PairProgFileSystemProvider.runFetchTrace st
        [PairProgFileSystemProvider.FetchEvent.response p c]) id = true ∧
    PairProgFileSystemProvider.isResolved
      (PairProgFileSystemProvider.runFetchTrace st
        [PairProgFileSystemProvider.FetchEvent.timeoutFired p id,
          PairProgFileSystemProvider.FetchEvent.response p c]) id = true := by
  have hresp : PairProgFileSystemProvider.stepFetch st
      (PairProgFileSystemProvider.FetchEvent.response p c) =
      ⟨PairProgFileSystemProvider.erasePending st p, st.resolvedList ++ [(id, c)]⟩ := by
    simp [PairProgFileSystemProvider.stepFetch, hpend]
  have htimeout : ∀ tid, PairProgFileSystemProvider.stepFetch st
      (PairProgFileSystemProvider.FetchEvent.timeoutFired p tid) =
      ⟨PairProgFileSystemProvider.erasePending st p, st.resolvedList ++ [(tid, [])]⟩ := by
    intro tid
    simp [PairProgFileSystemProvider.stepFetch, hpend]
  refine ⟨⟨?_, ?_⟩, ?_, ?_, ?_, ?_⟩
  · rw [hresp]
  · rw [hresp]
    exact PairProgFileSystemProvider.lookupPending_erase st _ p
  · intro tid
    rw [htimeout tid]
    exact ⟨rfl, PairProgFileSystemProvider.lookupPending_erase st _ p⟩
  · intro st2 hnone
    exact ⟨PairProgFileSystemProvider.stepFetch_response_none st2 p c hnone,
      fun tid => PairProgFileSystemProvider.stepFetch_timeout_none st2 p tid hnone⟩
  · show PairProgFileSystemProvider.isResolved
      (PairProgFileSystemProvider.stepFetch st
        (PairProgFileSystemProvider.FetchEvent.response p c)) id = true
    rw [hresp]
    simp [PairProgFileSystemProvider.isResolved]
  · show PairProgFileSystemProvider.isResolved
      (PairProgFileSystemProvider.stepFetch
        (PairProgFileSystemProvider.stepFetch st
          (PairProgFileSystemProvider.FetchEvent.timeoutFired p id))
        (PairProgFileSystemProvider.FetchEvent.response p c)) id = true
    rw [htimeout id]
    rw [PairProgFileSystemProvider.stepFetch_response_none _ p c
      (PairProgFileSystemProvider.lookupPending_erase st _ p)]
    simp [PairProgFileSystemProvider.isResolved]

/-- Witness for C9 (amended) at a concrete input: a single pending request
for `f` with id 7 resolves with the host content on response, and resolves
empty when its timeout fires first; the late response is then ignored. -/
theorem c9_fetch_resolution_witness :
    PairProgFileSystemProvider.lookupPending ⟨[("f", 7)], []⟩ "f" = some 7 ∧
    (PairProgFileSystemProvider.stepFetch ⟨[("f", 7)], []⟩
      (PairProgFileSystemProvider.FetchEvent.response "f" "abc".toList)).resolvedList
      = [(7, "abc".toList)] ∧
    PairProgFileSystemProvider.isResolved
      (PairProgFileSystemProvider.runFetchTrace ⟨[("f", 7)], []⟩
        [PairProgFileSystemProvider.FetchEvent.timeoutFired "f" 7,
          PairProgFileSystemProvider.FetchEvent.response "f" "abc".toList]) 7 = true :=
  ⟨by decide,
    (c9_fetch_resolution ⟨[("f", 7)], []⟩ "f" 7 "abc".toList (by decide)).1.1,
    (c9_fetch_resolution ⟨[("f", 7)], []⟩ "f" 7 "abc".toList (by decide)).2.2.2.2⟩

namespace DocumentSync

theorem handleRemoteEdit_noDoc (st : SyncState) (isHost : Bool)
    (payload : EditPayload) (h : st.contents payload.filePath = none) :
    handleRemoteEdit st isHost payload = st := by
  unfold handleRemoteEdit
  simp [h]

theorem getVersion_handleRemoteEdit (st : SyncState) (isHost : Bool)
    (payload : EditPayload) (text : List Char)
    (h : st.contents payload.filePath = some text) :
    getVersion (handleRemoteEdit st isHost payload) payload.filePath =
      getVersion st payload.filePath + 1 := by
  unfold handleRemoteEdit
  cases isHost <;>
    simp [h, incrementVersion, getVersion, recordEdit, setKey]

theorem handleRemoteEdit_fresh (st : SyncState) (p : String)
    (changes : List TextChange) (text : List Char) (hdoc : st.contents p = some text) :
    (handleRemoteEdit st true ⟨p, getVersion st p, changes⟩).contents p =
      some (applyTextChanges text changes) ∧
    getVersion (handleRemoteEdit st true ⟨p, getVersion st p, changes⟩) p =
      getVersion st p + 1 := by
  constructor
  · unfold handleRemoteEdit
    simp [hdoc, incrementVersion, recordEdit, setKey]
  · exact getVersion_handleRemoteEdit st true ⟨p, getVersion st p, changes⟩ text hdoc

theorem applyOps_ordered (ops : List EditPayload) :
    ∀ (st : SyncState) (p : String) (text : List Char),
      st.contents p = some text →
      wellVersioned (getVersion st p) ops = true →
      sameFile p ops = true →
      getVersion (applyOps st ops) p = getVersion st p + ops.length ∧
      (applyOps st ops).contents p = some (applyOpsText text ops) := by
  induction ops with
  | nil =>
    intro st p text hdoc _ _
    refine ⟨rfl, ?_⟩
    show st.contents p = some (applyOpsText text [])
    rw [hdoc]
    rfl
  | cons op rest ih =>
    intro st p text hdoc hver hpath
    obtain ⟨opPath, opVer, opChanges⟩ := op
    simp only [sameFile, List.all_cons, Bool.and_eq_true, decide_eq_true_eq] at hpath
    obtain ⟨hp1, hp2⟩ := hpath
    subst hp1
    simp only [wellVersioned, Bool.and_eq_true, decide_eq_true_eq] at hver
    obtain ⟨hv1, hv2⟩ := hver
    subst hv1
    have hfresh := handleRemoteEdit_fresh st opPath opChanges text hdoc
    have hrest := ih (handleRemoteEdit st true ⟨opPath, getVersion st opPath, opChanges⟩)
      opPath (applyTextChanges text opChanges) hfresh.1
      (by rw [hfresh.2]; exact hv2) hp2
    constructor
    · show getVersion (applyOps
        (handleRemoteEdit st true ⟨opPath, getVersion st opPath, opChanges⟩) rest) opPath = _
      rw [hrest.1, hfresh.2]
      simp only [List.length_cons]
      omega
    · show (applyOps
        (handleRemoteEdit st true ⟨opPath, getVersion st opPath, opChanges⟩) rest).contents opPath = _
      rw [hrest.2]
      rfl

end DocumentSync

/-- C3: when the host applies a batch of client-submitted operations in
sequence, each tagged with the version the host holds as it arrives, its
version advances by exactly the number of operations and the content equals
the sequential application of all the edits to the pre-batch content; in
general every operation the host actually applies (the document opens)
increments that document's version by exactly one — never zero, never more
— while an operation whose document cannot be opened is skipped entirely
and changes nothing. -/
theorem c3_version_ordering (st : SyncState) (p : String) (ops : List EditPayload)
    (text : List Char) (hdoc : st.contents p = some text)
    (hver : DocumentSync.wellVersioned (DocumentSync.getVersion st p) ops = true)
    (hpath : DocumentSync.sameFile p ops = true) :
    DocumentSync.getVersion (DocumentSync.applyOps st ops) p =
      DocumentSync.getVersion st p + ops.length ∧
    (DocumentSync.applyOps st ops).contents p =
      some (DocumentSync.applyOpsText text ops) ∧
    (∀ (st2 : SyncState) (isHost : Bool) (payload : EditPayload) (t2 : List Char),
      st2.contents payload.filePath = some t2 →
      DocumentSync.getVersion (DocumentSync.handleRemoteEdit st2 isHost payload)
          payload.filePath =
        DocumentSync.getVersion st2 payload.filePath + 1) ∧
    (∀ (st2 : SyncState) (isHost : Bool) (payload : EditPayload),
      st2.contents payload.filePath = none →
      DocumentSync.handleRemoteEdit st2 isHost payload = st2) := by
  have hmain := DocumentSync.applyOps_ordered ops st p text hdoc hver hpath
  exact ⟨hmain.1, hmain.2,
    fun st2 isHost payload t2 h =>
      DocumentSync.getVersion_handleRemoteEdit st2 isHost payload t2 h,
    fun st2 isHost payload h =>
      DocumentSync.handleRemoteEdit_noDoc st2 isHost payload h⟩

/-- Witness for C3 at a concrete input: applying two correctly-tagged
operations to the scenario state advances the version from 6 to 8 and the
content from `AXCD` to `ZQXCD`. -/
theorem c3_version_ordering_witness :
    scenarioC1.contents "a.txt" = some "AXCD".toList ∧
    DocumentSync.wellVersioned (DocumentSync.getVersion scenarioC1 "a.txt")
      [⟨"a.txt", 6, [⟨0, 1, "Z".toList⟩]⟩, ⟨"a.txt", 7, [⟨1, 0, "Q".toList⟩]⟩] = true ∧
    DocumentSync.sameFile "a.txt"
      [⟨"a.txt", 6, [⟨0, 1, "Z".toList⟩]⟩, ⟨"a.txt", 7, [⟨1, 0, "Q".toList⟩]⟩] = true ∧
    DocumentSync.getVersion
      (DocumentSync.applyOps scenarioC1
        [⟨"a.txt", 6, [⟨0, 1, "Z".toList⟩]⟩, ⟨"a.txt", 7, [⟨1, 0, "Q".toList⟩]⟩]) "a.txt" = 8 ∧
    (DocumentSync.applyOps scenarioC1
        [⟨"a.txt", 6, [⟨0, 1, "Z".toList⟩]⟩, ⟨"a.txt", 7, [⟨1, 0, "Q".toList⟩]⟩]).contents "a.txt"
      = some "ZQXCD".toList := by
  refine ⟨rfl, rfl, rfl, ?_, ?_⟩
  · have h := (c3_version_ordering scenarioC1 "a.txt"
      [⟨"a.txt", 6, [⟨0, 1, "Z".toList⟩]⟩, ⟨"a.txt", 7, [⟨1, 0, "Q".toList⟩]⟩]
      "AXCD".toList rfl rfl rfl).1
    simpa using h
  · have h := (c3_version_ordering scenarioC1 "a.txt"
      [⟨"a.txt", 6, [⟨0, 1, "Z".toList⟩]⟩, ⟨"a.txt", 7, [⟨1, 0, "Q".toList⟩]⟩]
      "AXCD".toList rfl rfl rfl).2.1
    simpa using h

end PairProg
